import Mathlib

/-!
# Verification of the blip per-monitor control plane

Shallow embedding of the core control-plane code of the blip metrics agent:

* `monitor/level_collector.go` — the Level Plan Collector (LPC): tick loop,
  level selection, pause/resume, plan swap (`ChangePlan`), per-sink error
  recording, `Status`, and `sortedLevels` (metric inheritance).
* `monitor/level_adjuster.go` — the Level Plan Adjuster (LPA): `CheckState`
  debounced state machine.
* `monitor/loader.go` — the monitor Loader: `Load` with the stop-loss brake.
* `heartbeat/writer.go` — the heartbeat Writer: bootstrap and steady-state
  sleep policy.
* `plan/plan_loader.go` — the plan Loader: `PlansLoaded`.
* `metrics/size.data` collector — `Data.Prepare` total-option marking.

Go maps are embedded as association lists (first occurrence is the live
binding; insertion appends), Go `error` values as `Option String`
(`none` = nil error), `time.Time`/durations as natural-number seconds, and
Go `int` as `Int` where the source value can be negative (the LPC second
counter `s`).
-/

namespace Blip

/-- Sorted level entry, from `monitor/level_collector.go`:
`type level struct { freq int; name string }`. `freq` is the level frequency
in whole seconds (the source converts the duration string `"5s"` to the
integer `5` with `time.ParseDuration`). -/
structure level where
  freq : Nat
  name : String
deriving DecidableEq, Repr, Inhabited

/-- The level-selection loop inside `lpc.Run`:

```go
for i := range c.levels {
    if s%c.levels[i].freq == 0 {
        level = i
    }
}
```

`lvl` is the running value of the Go variable `level` (initially `-1`) and
`i` the index of the first element of the remaining list. Go's `%` on a
nonnegative `s` and positive `freq` agrees with `Int.emod`. -/
def selectFrom (s : Int) : List level → Int → Int → Int
  | [], lvl, _ => lvl
  | l :: rest, lvl, i => selectFrom s rest (if s % (l.freq : Int) == 0 then i else lvl) (i + 1)

/-- Which level index `lpc.Run` picks on a tick with second counter `s`:
the Go loop above run over the whole sorted-levels slice, starting from
`level = -1`. `-1` means no level is due. -/
def selectLevel (levels : List level) (s : Int) : Int :=
  selectFrom s levels (-1) 0

/-- Index `i` holds a level whose `freq` divides the second counter `s`
(the levels due for collection on tick `s`). -/
def dueAt (levels : List level) (s : Int) (i : Nat) : Prop :=
  ∃ l, levels[i]? = some l ∧ (l.freq : Int) ∣ s

instance (levels : List level) (s : Int) (i : Nat) : Decidable (dueAt levels s i) := by
  unfold dueAt
  cases levels[i]? with
  | none => exact .isFalse (by simp)
  | some l => exact decidable_of_iff ((l.freq : Int) ∣ s) (by simp)

theorem dueAt_lt_length {levels : List level} {s : Int} {i : Nat} (h : dueAt levels s i) :
    i < levels.length := by
  obtain ⟨l, hl, -⟩ := h
  obtain ⟨hlen, -⟩ := List.getElem?_eq_some_iff.1 hl
  exact hlen

theorem dueAt_append_left {xs : List level} {x : level} {s : Int} {i : Nat}
    (hi : i < xs.length) : dueAt (xs ++ [x]) s i ↔ dueAt xs s i := by
  unfold dueAt
  rw [List.getElem?_append_left hi]

theorem dueAt_concat_self {xs : List level} {x : level} {s : Int} :
    dueAt (xs ++ [x]) s xs.length ↔ (x.freq : Int) ∣ s := by
  unfold dueAt
  rw [List.getElem?_concat_length]
  simp

/-- Running the selection loop over `xs ++ [x]` either picks the final index
(when `x` is due) or behaves exactly like the loop over `xs`. -/
theorem selectFrom_append (s : Int) (xs : List level) (x : level) (lvl i : Int) :
    selectFrom s (xs ++ [x]) lvl i =
      if s % (x.freq : Int) == 0 then i + (xs.length : Int) else selectFrom s xs lvl i := by
  induction xs generalizing lvl i with
  | nil => simp [selectFrom]
  | cons y ys ih =>
      simp only [List.cons_append, selectFrom, List.append_eq]
      rw [ih]
      by_cases h : (s % (x.freq : Int) == 0) = true
      · simp only [h, if_true, List.length_cons]
        push_cast
        ring
      · simp only [Bool.not_eq_true] at h
        simp [h]

theorem select_no_due {levels : List level} {s : Int}
    (h : ∀ i, ¬ dueAt levels s i) : selectLevel levels s = -1 := by
  induction levels using List.reverseRecOn with
  | nil => rfl
  | append_singleton xs x ih =>
      unfold selectLevel at *
      rw [selectFrom_append]
      have hx : ¬ (x.freq : Int) ∣ s := fun hd =>
        h xs.length (dueAt_concat_self.2 hd)
      have hmod : (s % (x.freq : Int) == 0) = false := by
        rw [beq_eq_false_iff_ne]
        exact fun hz => hx (Int.dvd_of_emod_eq_zero hz)
      rw [hmod, if_neg (by simp)]
      exact ih fun i hdue => h i ((dueAt_append_left (dueAt_lt_length hdue)).2 hdue)

theorem select_greatest_due {levels : List level} {s : Int} {i : Nat}
    (hdue : dueAt levels s i) (hmax : ∀ j, dueAt levels s j → j ≤ i) :
    selectLevel levels s = i := by
  induction levels using List.reverseRecOn with
  | nil => exact absurd (dueAt_lt_length hdue) (by simp)
  | append_singleton xs x ih =>
      unfold selectLevel at *
      rw [selectFrom_append]
      by_cases hx : (x.freq : Int) ∣ s
      · have hdueLast : dueAt (xs ++ [x]) s xs.length := dueAt_concat_self.2 hx
        have h1 : xs.length ≤ i := hmax _ hdueLast
        have h2 : i < xs.length + 1 := by
          simpa using dueAt_lt_length hdue
        have hi : i = xs.length := le_antisymm (Nat.lt_succ_iff.1 h2) h1
        have hmod : (s % (x.freq : Int) == 0) = true := by
          rw [beq_iff_eq]
          exact Int.emod_eq_zero_of_dvd hx
        rw [hmod, if_pos rfl, hi]
        ring
      · have hne : i ≠ xs.length := fun hi => hx (dueAt_concat_self.1 (hi ▸ hdue))
        have hlt : i < xs.length := by
          have h2 : i < xs.length + 1 := by simpa using dueAt_lt_length hdue
          omega
        have hmod : (s % (x.freq : Int) == 0) = false := by
          rw [beq_eq_false_iff_ne]
          exact fun hz => hx (Int.dvd_of_emod_eq_zero hz)
        rw [hmod, if_neg (by simp)]
        exact ih ((dueAt_append_left hlt).1 hdue) fun j hj =>
          hmax j ((dueAt_append_left (dueAt_lt_length hj)).2 hj)

/-- **C1.** On every tick of `lpc.Run` where the collector is not paused, the
level-selection loop over the sorted levels picks exactly the level at the
greatest index whose `freq` divides the second counter `s`; if no level's
`freq` divides `s`, the selected index stays `-1` and no collection is
launched on that tick. -/
theorem c1_run_tick_selects_greatest_dividing_level (levels : List level) (s : Int)
    (_hfreq : ∀ l ∈ levels, 0 < l.freq) (_hs : 0 ≤ s) :
    ((∃ i, dueAt levels s i) →
      ∃ i, dueAt levels s i ∧ (∀ j, dueAt levels s j → j ≤ i) ∧
        selectLevel levels s = (i : Int)) ∧
    ((∀ i, ¬ dueAt levels s i) → selectLevel levels s = -1) := by
  refine ⟨?_, fun h => select_no_due h⟩
  rintro ⟨i0, hi0⟩
  have hbound : ∀ j, dueAt levels s j → j ≤ levels.length := fun j hj =>
    le_of_lt (dueAt_lt_length hj)
  set g := Nat.findGreatest (fun i => dueAt levels s i) levels.length with hg
  have hPg : dueAt levels s g := Nat.findGreatest_spec (hbound i0 hi0) hi0
  have hmax : ∀ j, dueAt levels s j → j ≤ g := fun j hj =>
    Nat.le_findGreatest (hbound j hj) hj
  exact ⟨g, hPg, hmax, select_greatest_due hPg hmax⟩

/-- Demonstration levels for the C1 and C4 witnesses: freqs 1s, 2s, 5s. -/
def c1DemoLevels : List level :=
  [⟨1, "1s"⟩, ⟨2, "2s"⟩, ⟨5, "5s"⟩]

/-- Witness for C1 at `s = 10`: all three freqs divide 10 and the loop picks
index 2, the greatest. -/
theorem c1_run_tick_selects_greatest_dividing_level_witness :
    ∃ i, dueAt c1DemoLevels 10 i ∧ (∀ j, dueAt c1DemoLevels 10 j → j ≤ i) ∧
      selectLevel c1DemoLevels 10 = (i : Int) :=
  (c1_run_tick_selects_greatest_dividing_level c1DemoLevels 10
      (by decide) (by decide)).1 ⟨0, by decide⟩

/-! ## LPC tick loop state (`lpc.Run`, `lpc.Pause`, commit callback of
`lpc.changePlan`) -/

/-- The fields of `lpc` that the tick loop reads and writes under `stateMux`:
second counter `s` (a Go `int`, initialized to `-1`), published `state`,
plan name, sorted levels, and the `paused` flag. -/
structure LpcState where
  s : Int
  state : String
  planName : String
  levels : List level
  paused : Bool
deriving DecidableEq, Repr

/-- What one tick of `lpc.Run` does after incrementing `s`: skip (paused or
no level due), record an `LPC_BLOCKED` error (level due but both collector
slots busy), or launch collection of a level. -/
inductive TickOutcome
  | skip
  | blocked (levelName : String)
  | collected (levelName : String)
deriving DecidableEq, Repr

/-- One iteration of the `lpc.Run` ticker loop (the stop-signal check aside):

```go
s = s + 1
if c.paused { s = -1; continue }
for i := range c.levels { if s%c.levels[i].freq == 0 { level = i } }
if level == -1 { continue }
levelName = c.levels[level].name
select { case <-sem: go collect(levelName) default: /* BLOCKED */ }
```

`freeSlot` says whether the `sem` channel has a token. The Go variable
`level` is `-1` at the start of every iteration (it is reset right after a
successful selection and never otherwise set). -/
def tick (st : LpcState) (freeSlot : Bool) : LpcState × TickOutcome :=
  let s := st.s + 1
  if st.paused then ({ st with s := -1 }, .skip)
  else
    let lvl := selectLevel st.levels s
    if lvl == -1 then ({ st with s := s }, .skip)
    else
      let levelName := (st.levels.getD lvl.toNat ⟨0, ""⟩).name
      if freeSlot then ({ st with s := s }, .collected levelName)
      else ({ st with s := s }, .blocked levelName)

/-- A run of consecutive ticks; `slots` gives, per tick, whether a collector
slot was free. -/
def tickRun (st : LpcState) : List Bool → LpcState × List TickOutcome
  | [] => (st, [])
  | free :: rest =>
    let r1 := tick st free
    let r2 := tickRun r1.1 rest
    (r2.1, r1.2 :: r2.2)

/-- The `after` commit callback defined inside `lpc.changePlan`: under the
state mutex it publishes the new state, plan and sorted levels, and clears
`paused` (the only way collection resumes after a pause). -/
def afterCommit (st : LpcState) (newState newPlanName : String)
    (newLevels : List level) : LpcState :=
  { st with state := newState, planName := newPlanName,
            levels := newLevels, paused := false }

/-- `lpc.Pause`: sets the paused flag. -/
def lpcPause (st : LpcState) : LpcState := { st with paused := true }

theorem tick_paused {st : LpcState} (hp : st.paused = true) (free : Bool) :
    tick st free = ({ st with s := -1 }, .skip) := by
  unfold tick
  rw [hp]
  simp

theorem tickRun_paused {st : LpcState} (hp : st.paused = true) (slots : List Bool) :
    (tickRun st slots).1 = (if slots = [] then st else { st with s := -1 }) ∧
      ∀ o ∈ (tickRun st slots).2, o = .skip := by
  induction slots generalizing st with
  | nil => simp [tickRun]
  | cons free rest ih =>
      have h1 := tick_paused hp free
      have hp1 : ({ st with s := -1 } : LpcState).paused = true := hp
      obtain ⟨ihs, iho⟩ := ih hp1
      constructor
      · show (tickRun (tick st free).1 rest).1 = _
        rw [h1]
        simp only [ihs]
        by_cases hrest : rest = [] <;> simp [hrest]
      · intro o ho
        simp only [tickRun, h1] at ho
        rcases List.mem_cons.1 ho with h | h
        · exact h
        · exact iho o h

/-- Every level is due at `s = 0`, so the selection loop picks the last
index. -/
theorem selectLevel_zero {nl : List level} (hnl : nl ≠ []) :
    selectLevel nl 0 = ((nl.length - 1 : Nat) : Int) := by
  have hlen : 0 < nl.length := List.length_pos.2 hnl
  have hlt : nl.length - 1 < nl.length := by omega
  refine select_greatest_due ⟨nl[nl.length - 1], ?_, dvd_zero _⟩ ?_
  · exact List.getElem?_eq_getElem hlt
  · intro j hj
    have := dueAt_lt_length hj
    omega

/-- **C4.** While the LPC is paused no tick launches a collection and `s` is
reset to `-1` on every tick, however many ticks elapse; the commit callback
of `changePlan` publishes the new state, plan and sorted levels and clears
`paused`, so the first non-paused tick runs with `s = 0`, every level's
`freq` divides `s`, and collection is launched immediately (of the
greatest, i.e. last, sorted level). -/
theorem c4_pause_resets_counter_and_resume_collects_at_zero
    (st : LpcState) (slots : List Bool) (ns np : String) (nl : List level)
    (hp : st.paused = true) (hslots : slots ≠ []) (hnl : nl ≠ []) :
    (tickRun st slots).1.s = -1 ∧
    (tickRun st slots).1.paused = true ∧
    (∀ o ∈ (tickRun st slots).2, o = TickOutcome.skip) ∧
    (afterCommit (tickRun st slots).1 ns np nl).state = ns ∧
    (afterCommit (tickRun st slots).1 ns np nl).planName = np ∧
    (afterCommit (tickRun st slots).1 ns np nl).levels = nl ∧
    (afterCommit (tickRun st slots).1 ns np nl).paused = false ∧
    (tick (afterCommit (tickRun st slots).1 ns np nl) true).1.s = 0 ∧
    (∀ l ∈ nl, (l.freq : Int) ∣
      (tick (afterCommit (tickRun st slots).1 ns np nl) true).1.s) ∧
    (tick (afterCommit (tickRun st slots).1 ns np nl) true).2 =
      TickOutcome.collected (nl.getLast hnl).name := by
  obtain ⟨hs1, ho1⟩ := tickRun_paused hp slots
  rw [if_neg hslots] at hs1
  have hpause1 : (tickRun st slots).1.s = -1 := by rw [hs1]
  have hpaused1 : (tickRun st slots).1.paused = true := by rw [hs1]; exact hp
  refine ⟨hpause1, hpaused1, ho1, rfl, rfl, rfl, rfl, ?_, ?_, ?_⟩
  case _ =>
    unfold tick afterCommit
    simp [hpause1]
    split <;> rfl
  case _ =>
    intro l _
    unfold tick afterCommit
    simp [hpause1]
    split <;> simp
  case _ =>
    have hsel : selectLevel nl (((tickRun st slots).1.s) + 1) =
        ((nl.length - 1 : Nat) : Int) := by
      rw [hpause1]
      exact selectLevel_zero hnl
    unfold tick afterCommit
    simp only [hpause1]
    have hlen : 0 < nl.length := List.length_pos.2 hnl
    have hne : (((nl.length - 1 : Nat) : Int) == -1) = false := by
      rw [beq_eq_false_iff_ne]
      omega
    rw [show (-1 : Int) + 1 = 0 by ring, selectLevel_zero hnl]
    simp only [hne, if_false, Bool.false_eq_true, if_true, Int.toNat_natCast]
    have hgetD : nl.getD (nl.length - 1) ⟨0, ""⟩ = nl.getLast hnl := by
      rw [List.getD_eq_getElem?_getD, List.getElem?_eq_getElem (by omega : nl.length - 1 < nl.length)]
      simp [List.getLast_eq_getElem]
    rw [hgetD]

/-- Witness for C4: a paused LPC ticked three times, then a commit to the
demo levels, then one more tick. -/
theorem c4_pause_resets_counter_and_resume_collects_at_zero_witness :
    (tickRun ⟨7, "active", "p0", c1DemoLevels, true⟩ [true, false, true]).1.s = -1 ∧
    (tickRun ⟨7, "active", "p0", c1DemoLevels, true⟩ [true, false, true]).1.paused = true ∧
    (∀ o ∈ (tickRun ⟨7, "active", "p0", c1DemoLevels, true⟩ [true, false, true]).2,
      o = TickOutcome.skip) ∧
    (afterCommit (tickRun ⟨7, "active", "p0", c1DemoLevels, true⟩ [true, false, true]).1
      "read-only" "ro" c1DemoLevels).state = "read-only" ∧
    (afterCommit (tickRun ⟨7, "active", "p0", c1DemoLevels, true⟩ [true, false, true]).1
      "read-only" "ro" c1DemoLevels).planName = "ro" ∧
    (afterCommit (tickRun ⟨7, "active", "p0", c1DemoLevels, true⟩ [true, false, true]).1
      "read-only" "ro" c1DemoLevels).levels = c1DemoLevels ∧
    (afterCommit (tickRun ⟨7, "active", "p0", c1DemoLevels, true⟩ [true, false, true]).1
      "read-only" "ro" c1DemoLevels).paused = false ∧
    (tick (afterCommit (tickRun ⟨7, "active", "p0", c1DemoLevels, true⟩ [true, false, true]).1
      "read-only" "ro" c1DemoLevels) true).1.s = 0 ∧
    (∀ l ∈ c1DemoLevels, (l.freq : Int) ∣
      (tick (afterCommit (tickRun ⟨7, "active", "p0", c1DemoLevels, true⟩ [true, false, true]).1
        "read-only" "ro" c1DemoLevels) true).1.s) ∧
    (tick (afterCommit (tickRun ⟨7, "active", "p0", c1DemoLevels, true⟩ [true, false, true]).1
      "read-only" "ro" c1DemoLevels) true).2 =
      TickOutcome.collected ((c1DemoLevels.getLast (by decide)).name) :=
  c4_pause_resets_counter_and_resume_collects_at_zero
    ⟨7, "active", "p0", c1DemoLevels, true⟩ [true, false, true]
    "read-only" "ro" c1DemoLevels rfl (by decide) (by decide)

/-! ## `lpc.ChangePlan` (plan-swap registration) -/

/-- The fields of `lpc` that `ChangePlan` reads and writes under `changeMux`
and `stateMux`: the `stopped` flag, the `changing` flag, and (abstractly)
the target of the in-flight `changePlan` goroutine (`none` when no swap was
ever requested). -/
structure SwapState where
  stopped : Bool
  changing : Bool
  target : Option (String × String)
deriving DecidableEq, Repr

/-- `lpc.ChangePlan(newState, newPlanName)`:

```go
c.changeMux.Lock(); defer c.changeMux.Unlock()
if c.stopped { return nil }
c.stateMux.Lock()
if c.changing { c.changePlanCancelFunc(); <-c.changePlanDoneChan }
c.changing = true
...
go c.changePlan(ctx, newState, newPlanName)
return nil
```

Result: the new swap bookkeeping, whether an in-flight swap goroutine was
cancelled, and the returned Go error (`none` = nil). -/
def ChangePlan (st : SwapState) (newState newPlanName : String) :
    SwapState × Bool × Option String :=
  if st.stopped then (st, false, none)
  else ({ stopped := false, changing := true, target := some (newState, newPlanName) },
        st.changing, none)

/-- C5 counterexample: on a stopped LPC, `ChangePlan` returns a nil error
(and registers nothing), contradicting the claim that it returns an error
exactly when the LPC has been stopped. -/
theorem c5_counterexample_stopped_returns_nil :
    (ChangePlan ⟨true, false, none⟩ "active" "p").2.2 = none ∧
    (ChangePlan ⟨true, false, none⟩ "active" "p").1 = ⟨true, false, none⟩ := by
  decide

/-- **C5 (amended).** `ChangePlan` always returns a nil error, stopped or
not. When the LPC is stopped it is a silent no-op (no swap registered, no
goroutine cancelled); when not stopped it registers the requested
`(state, plan)` target, cancels any in-flight swap (reported iff `changing`
was set), and a subsequent call supersedes it, so the last call wins. -/
theorem c5_changeplan_never_errors_and_last_call_wins
    (changing : Bool) (target : Option (String × String)) (ns np ns2 np2 : String) :
    (ChangePlan ⟨false, changing, target⟩ ns np).2.2 = none ∧
    (ChangePlan ⟨false, changing, target⟩ ns np).1.target = some (ns, np) ∧
    (ChangePlan ⟨false, changing, target⟩ ns np).2.1 = changing ∧
    (ChangePlan ⟨true, changing, target⟩ ns np).2.2 = none ∧
    (ChangePlan ⟨true, changing, target⟩ ns np).1 = ⟨true, changing, target⟩ ∧
    (ChangePlan (ChangePlan ⟨false, changing, target⟩ ns np).1 ns2 np2).1.target =
      some (ns2, np2) :=
  ⟨rfl, rfl, rfl, rfl, rfl, rfl⟩

/-! ## Level Plan Adjuster (`monitor/level_adjuster.go`) -/

/-- Database states, from the blip package constants. `""` is the sentinel
"none". -/
def STATE_NONE : String := ""

def STATE_OFFLINE : String := "offline"

def STATE_STANDBY : String := "standby"

def STATE_READ_ONLY : String := "read-only"

def STATE_ACTIVE : String := "active"

/-- The adjuster's `state` struct: `(state, plan, ts)`. The Go zero value
`time.Time{}` is embedded as `ts = none`; times are whole seconds. -/
structure state where
  state : String
  plan : String
  ts : Option Nat
deriving DecidableEq, Repr

/-- The adjuster's `change` struct: dwell duration (seconds) and plan to
switch to. -/
structure change where
  after : Nat
  plan : String
deriving DecidableEq, Repr

/-- Go map read `a.states[s]`: zero value on a missing key. -/
def statesGet (m : List (String × change)) (s : String) : change :=
  (m.lookup s).getD ⟨0, ""⟩

/-- The adjuster's fields: per-state dwell configuration and the
`prev`/`curr`/`pending`/`first` state machine. -/
structure adjuster where
  states : List (String × change)
  prev : state
  curr : state
  pending : state
  first : Bool
deriving DecidableEq, Repr

/-- A call the adjuster makes into the LPC. -/
inductive LpaAction
  | pause
  | changePlan (newState newPlanName : String)
deriving DecidableEq, Repr

/-- `adjuster.changePlan`: empty plan name means `lpc.Pause()`, otherwise
`lpc.ChangePlan(state, planName)`. -/
def changePlanCall (st planName : String) : LpaAction :=
  if planName = "" then .pause else .changePlan st planName

/-- `adjuster.CheckState`, with the observed state (result of the probe
`a.state()`) and the current time passed in. Returns the new adjuster state
and the LPC call made, if any (events are not modelled). -/
def CheckState (a : adjuster) (now : Nat) (obsv : String) :
    adjuster × Option LpaAction :=
  if obsv = a.curr.state then
    if a.pending.ts.isSome then
      -- changed back to current state: clear pending, STATE_CHANGE_ABORT
      ({ a with pending := { a.pending with ts := none, state := STATE_NONE } }, none)
    else (a, none)
  else if obsv = a.pending.state then
    -- still in the pending state; is it time to change?
    if now - a.pending.ts.getD 0 < (statesGet a.states a.pending.state).after then
      (a, none)
    else
      ({ a with prev := a.curr, curr := a.pending,
                pending := { a.pending with ts := none, state := STATE_NONE } },
        some (changePlanCall a.pending.state a.pending.plan))
  else if a.first && (a.curr.state == STATE_OFFLINE) then
    ({ a with first := false, prev := a.curr,
              curr := { state := obsv, plan := "", ts := some now } },
      some (changePlanCall obsv (statesGet a.states obsv).plan))
  else
    ({ a with pending := { state := obsv, plan := (statesGet a.states obsv).plan,
                           ts := some now } },
      none)

/-- Drive `CheckState` over a sequence of `(now, observed)` pairs (the LPA
calls it once per second), collecting the LPC call of each step. -/
def runAdjuster (a : adjuster) : List (Nat × String) → adjuster × List (Option LpaAction)
  | [] => (a, [])
  | (now, obsv) :: rest =>
    let r1 := CheckState a now obsv
    let r2 := runAdjuster r1.1 rest
    (r2.1, r1.2 :: r2.2)

/-- C6 scenario configuration: 2-second dwell for read-only. -/
def c6States : List (String × change) :=
  [(STATE_OFFLINE, ⟨0, ""⟩), (STATE_STANDBY, ⟨0, "standby-plan"⟩),
   (STATE_READ_ONLY, ⟨2, "ro-plan"⟩), (STATE_ACTIVE, ⟨0, "active-plan"⟩)]

/-- C6 scenario: the adjuster as built by `NewLevelAdjuster`. -/
def c6Init : adjuster :=
  { states := c6States, prev := ⟨"", "", none⟩,
    curr := ⟨STATE_OFFLINE, "", none⟩, pending := ⟨"", "", none⟩, first := true }

/-- C6 observation sequence: t0 active, t1..t3 read-only. -/
def c6Obs : List (Nat × String) :=
  [(0, STATE_ACTIVE), (1, STATE_READ_ONLY), (2, STATE_READ_ONLY), (3, STATE_READ_ONLY)]

/-- The LPC calls made over the C6 scenario. -/
def c6Actions : List (Option LpaAction) := (runAdjuster c6Init c6Obs).2

/-- C6 counterexample: at t2 only one second has elapsed since the pending
read-only state was first observed at t1, which is less than the 2-second
dwell, so `CheckState` makes no LPC call at t2 and no
`ChangePlan("read-only", ...)` has been issued by the end of t2 —
contradicting the claim that the change is issued at t2. -/
theorem c6_counterexample_no_change_at_t2 :
    c6Actions.getD 2 none = none ∧
    (c6Actions.take 3).count (some (.changePlan STATE_READ_ONLY "ro-plan")) = 0 := by
  decide

/-- **C6 (amended).** With a 2-second read-only dwell and observations
t0 active, t1 read-only, t2 read-only, t3 read-only,
`ChangePlan("read-only", ro-plan)` is issued exactly once, at t3 (the first
tick with `now − pending.ts ≥ 2`); t2 issues no LPC call. -/
theorem c6_dwell_commits_read_only_at_t3 :
    c6Actions = [some (.changePlan STATE_ACTIVE "active-plan"), none, none,
                 some (.changePlan STATE_READ_ONLY "ro-plan")] ∧
    c6Actions.count (some (.changePlan STATE_READ_ONLY "ro-plan")) = 1 := by
  decide

/-! ## Monitor Loader (`monitor/loader.go`): `Load` and the stop-loss brake -/

/-- The `Changes` struct; monitors are represented by their `MonitorId`
(`Invalid` is not needed here). -/
structure Changes where
  added : List String
  removed : List String
  changed : List String
deriving DecidableEq, Repr

/-- The Loader fields `Load` uses: the repo of loaded monitors (`dbmon`,
keyed on monitorId) and the stop-loss thresholds. Go's `float64` percentage
is embedded as an exact rational (the ratios of small integer counts used
here are far from any rounding boundary). -/
structure LoaderState where
  dbmon : List String
  stopLossPercent : ℚ
  stopLossNumber : Nat
deriving DecidableEq, Repr

/-- The stop-loss check in `Loader.Load`:

```go
nBefore := float64(len(ml.dbmon))
nNow := float64(len(changes.Removed))
if nNow < nBefore {
    var errMsg string
    if ml.stopLossPercent > 0 {
        lost := (nBefore - nNow) / nBefore
        if lost > ml.stopLossPercent { errMsg = ... }
    }
    if ml.stopLossNumber > 0 {
        lost := uint(nBefore - nNow)
        if lost > ml.stopLossNumber { errMsg = ... }
    }
    if errMsg != "" { event.Errorf(event.MONITORS_STOPLOSS, errMsg); return nil }
}
```

True iff `errMsg` ends up non-empty, i.e. iff `Load` refuses the change. -/
def stopLossTriggered (st : LoaderState) (ch : Changes) : Bool :=
  let nBefore : ℚ := st.dbmon.length
  let nNow : ℚ := ch.removed.length
  if nNow < nBefore then
    (decide (0 < st.stopLossPercent) &&
       decide (st.stopLossPercent < (nBefore - nNow) / nBefore)) ||
    (decide (0 < st.stopLossNumber) &&
       decide (st.stopLossNumber < st.dbmon.length - ch.removed.length))
  else false

/-- The apply phase at the end of `Loader.Load`: stop and delete removed
and changed monitors, insert added ones (in `loaded-but-not-started`
state). -/
def applyChanges (dbmon : List String) (ch : Changes) : List String :=
  let d1 := dbmon.filter (fun m => !ch.removed.contains m)
  let d2 := d1.filter (fun m => !ch.changed.contains m)
  d2 ++ ch.added

/-- `Loader.Load` after `Changes` has been computed: either refuse the whole
change on stop-loss (emit `MONITORS_STOPLOSS`, return nil — "this func
didn't fail") or apply it. Result: new state, whether `MONITORS_STOPLOSS`
was emitted, and the returned Go error (`none` = nil on both paths). -/
def Load (st : LoaderState) (ch : Changes) : LoaderState × Bool × Option String :=
  if stopLossTriggered st ch then (st, true, none)
  else ({ st with dbmon := applyChanges st.dbmon ch }, false, none)

/-- C2 failing input: 10 loaded monitors. -/
def c2Before : List String :=
  ["m0", "m1", "m2", "m3", "m4", "m5", "m6", "m7", "m8", "m9"]

/-- C2 failing input: a reconcile pass that removes 9 of the 10 monitors. -/
def c2Changes : Changes :=
  ⟨[], ["m0", "m1", "m2", "m3", "m4", "m5", "m6", "m7", "m8"], []⟩

/-- C2 failing input: stop-loss configured at 50%. -/
def c2State : LoaderState := ⟨c2Before, 1/2, 0⟩

/-- **C2 (code bug).** Removing 9 of 10 monitors with stop-loss-percent 50%
must trip the brake (`9/10 > 1/2`), per the spec and the code's own intent
comment — but `Load` computes `lost` from `len(changes.Removed)` in place
of the new total, so `lost = (10−9)/10 = 1/10`, no stop-loss fires, and the
9 monitors are removed. -/
theorem c2_stoploss_inverted_code_bug :
    (c2Changes.removed.length : ℚ) / (c2State.dbmon.length : ℚ) >
      c2State.stopLossPercent ∧
    stopLossTriggered c2State c2Changes = false ∧
    Load c2State c2Changes = (⟨["m9"], 1/2, 0⟩, false, none) := by
  have hsl : stopLossTriggered c2State c2Changes = false := by
    simp only [stopLossTriggered, c2State, c2Changes, c2Before]
    norm_num
  refine ⟨?_, hsl, ?_⟩
  · simp only [c2State, c2Changes, c2Before]
    norm_num
  · simp only [Load, hsl]
    norm_num [applyChanges, c2State, c2Changes, c2Before]
    decide

/-! ## Heartbeat writer (`heartbeat/writer.go`) -/

/-- `WriteTimeout = 5 * time.Second` (seconds). -/
def WriteTimeout : Nat := 5

/-- `InitErrorWait = 10 * time.Second` (seconds). -/
def InitErrorWait : Nat := 10

/-- `ReadOnlyWait = 20 * time.Second` (seconds). -/
def ReadOnlyWait : Nat := 20

/-- Outcome of one heartbeat `ExecContext`, classifying a non-nil error the
way `sqlutil.ReadOnly(err)` does (that helper is outside the embedded
core). -/
inductive ExecResult
  | ok
  | readOnlyErr
  | otherErr
deriving DecidableEq, Repr

/-- The sleeps (in seconds, in order) of one iteration of the steady-state
loop of `Writer.Write`:

```go
for {
    time.Sleep(w.freq)
    _, err = w.db.ExecContext(ctx, ping) // UPDATE heartbeat SET ts=NOW(3) ...
    if err != nil {
        if sqlutil.ReadOnly(err) { time.Sleep(ReadOnlyWait) }
        else { /* no special sleep; keep trying to write at freq */ }
    }
    ...
}
```
-/
def steadyCycleSleeps (freq : Nat) (res : ExecResult) : List Nat :=
  [freq] ++ (match res with
    | .readOnlyErr => [ReadOnlyWait]
    | .otherErr => []
    | .ok => [])

/-- The sleeps of one failed attempt of the bootstrap INSERT loop in
`Writer.Write` (on success the loop breaks without sleeping):
read-only error → `ReadOnlyWait`, any other error → `InitErrorWait`. -/
def initAttemptSleeps : ExecResult → List Nat
  | .ok => []
  | .readOnlyErr => [ReadOnlyWait]
  | .otherErr => [InitErrorWait]

/-- **C7.** In the steady-state heartbeat loop a read-only UPDATE failure
adds the long 20-second read-only wait (not the 10-second init wait); any
other failure adds no extra sleep, keeping the `sleep(freq)` cadence; and a
success resumes the plain `sleep(freq)` loop. -/
theorem c7_heartbeat_read_only_wait_policy (freq : Nat) :
    steadyCycleSleeps freq .readOnlyErr = [freq, ReadOnlyWait] ∧
    steadyCycleSleeps freq .otherErr = [freq] ∧
    steadyCycleSleeps freq .ok = [freq] ∧
    ReadOnlyWait = 20 ∧ InitErrorWait = 10 ∧
    initAttemptSleeps .readOnlyErr = [ReadOnlyWait] ∧
    initAttemptSleeps .otherErr = [InitErrorWait] :=
  ⟨rfl, rfl, rfl, rfl, rfl, rfl, rfl⟩

/-! ## Per-sink error recording (`lpc.collect` / `lpc.Status`) -/

/-- A Go `error` value: `none` is the nil error. -/
abbrev GoErr := Option String

/-- Go map assignment `m[k] = v` on an association list: overwrite the live
(first) binding or append a new one. -/
def mapSet {β : Type} : List (String × β) → String → β → List (String × β)
  | [], k, v => [(k, v)]
  | (k0, v0) :: rest, k, v =>
    if k0 = k then (k, v) :: rest else (k0, v0) :: mapSet rest k v

/-- `fmt.Errorf("[%s] %s", time.Now(), err)` from `lpc.collect` — always a
fresh non-nil error, even when the `Send` error `err` is nil (a nil error
renders as `%!s(<nil>)`). -/
def fmtSinkErr (now : String) (err : GoErr) : String :=
  "[" ++ now ++ "] " ++ (match err with | some m => m | none => "%!s(<nil>)")

/-- The sink loop at the end of `lpc.collect`:

```go
for i := range c.sinks {
    sinkName := c.sinks[i].Name()
    err := c.sinks[i].Send(context.Background(), metrics)
    c.sinkErrors[sinkName] = fmt.Errorf("[%s] %s", time.Now(), err)
}
```

`sendResult` gives each sink's `Send` return value (`none` = success);
`now` stands for the wall-clock rendering. -/
def sendToSinks (m : List (String × GoErr)) (now : String) (sinks : List String)
    (sendResult : String → GoErr) : List (String × GoErr) :=
  sinks.foldl (fun acc s => mapSet acc s (some (fmtSinkErr now (sendResult s)))) m

/-- The sink-error part of `lpc.Status`: copy every non-nil entry of
`c.sinkErrors` to a `name → message` map, skipping nil entries. -/
def statusSinkErrors (m : List (String × GoErr)) : List (String × String) :=
  m.filterMap (fun p => p.2.map (fun e => (p.1, e)))

theorem lookup_cons_self {β : Type} (k : String) (v : β) (rest : List (String × β)) :
    ((k, v) :: rest).lookup k = some v := by
  rw [List.lookup_cons]
  simp

theorem lookup_cons_of_ne {β : Type} {a k : String} (v : β) (rest : List (String × β))
    (h : a ≠ k) : ((k, v) :: rest).lookup a = rest.lookup a := by
  rw [List.lookup_cons]
  have hb : (a == k) = false := beq_eq_false_iff_ne.2 h
  rw [hb]

theorem lookup_mapSet_self {β : Type} (m : List (String × β)) (k : String) (v : β) :
    (mapSet m k v).lookup k = some v := by
  induction m with
  | nil => exact lookup_cons_self k v []
  | cons p rest ih =>
      obtain ⟨k0, v0⟩ := p
      by_cases h : k0 = k
      · simp only [mapSet, if_pos h]
        exact lookup_cons_self k v rest
      · simp only [mapSet, if_neg h]
        rw [lookup_cons_of_ne v0 _ (Ne.symm h)]
        exact ih

theorem lookup_mapSet_ne {β : Type} (m : List (String × β)) {k k' : String} (v : β)
    (h : k' ≠ k) : (mapSet m k v).lookup k' = m.lookup k' := by
  induction m with
  | nil =>
      show ([(k, v)] : List (String × β)).lookup k' = none
      rw [lookup_cons_of_ne v [] h]
      rfl
  | cons p rest ih =>
      obtain ⟨k0, v0⟩ := p
      by_cases h0 : k0 = k
      · subst h0
        have hset : mapSet ((k0, v0) :: rest) k0 v = (k0, v) :: rest := by
          simp [mapSet]
        rw [hset, lookup_cons_of_ne v rest h, lookup_cons_of_ne v0 rest h]
      · simp only [mapSet, if_neg h0]
        by_cases hk' : k' = k0
        · subst hk'
          rw [lookup_cons_self, lookup_cons_self]
        · rw [lookup_cons_of_ne v0 _ hk', lookup_cons_of_ne v0 _ hk']
          exact ih

theorem sendToSinks_not_mem (m : List (String × GoErr)) (now : String)
    {sinks : List String} (sendResult : String → GoErr) {s : String}
    (h : s ∉ sinks) : (sendToSinks m now sinks sendResult).lookup s = m.lookup s := by
  induction sinks generalizing m with
  | nil => rfl
  | cons t rest ih =>
      have hs : s ∉ rest := fun hr => h (List.mem_cons_of_mem t hr)
      have hne : s ≠ t := fun he => h (he ▸ List.mem_cons_self t rest)
      show (sendToSinks (mapSet m t _) now rest sendResult).lookup s = _
      rw [ih _ hs, lookup_mapSet_ne _ _ hne]

theorem sendToSinks_mem (m : List (String × GoErr)) (now : String)
    {sinks : List String} (sendResult : String → GoErr) {s : String}
    (h : s ∈ sinks) :
    (sendToSinks m now sinks sendResult).lookup s =
      some (some (fmtSinkErr now (sendResult s))) := by
  induction sinks generalizing m with
  | nil => exact absurd h (List.not_mem_nil s)
  | cons t rest ih =>
      by_cases hr : s ∈ rest
      · exact ih _ hr
      · have hst : s = t := by
          rcases List.mem_cons.1 h with h1 | h1
          · exact h1
          · exact absurd h1 hr
        subst hst
        show (sendToSinks (mapSet m s _) now rest sendResult).lookup s = _
        rw [sendToSinks_not_mem _ _ _ hr, lookup_mapSet_self]

theorem statusSinkErrors_lookup {m : List (String × GoErr)} {s e : String}
    (h : m.lookup s = some (some e)) : (statusSinkErrors m).lookup s = some e := by
  induction m with
  | nil => simp at h
  | cons p rest ih =>
      obtain ⟨k0, v0⟩ := p
      by_cases hk : s = k0
      · subst hk
        rw [lookup_cons_self] at h
        obtain rfl : v0 = some e := by injection h
        show ((s, e) :: statusSinkErrors rest).lookup s = some e
        exact lookup_cons_self s e _
      · rw [lookup_cons_of_ne v0 _ hk] at h
        cases v0 with
        | none => simpa [statusSinkErrors] using ih h
        | some x =>
            show ((k0, x) :: statusSinkErrors rest).lookup s = some e
            rw [lookup_cons_of_ne x _ hk]
            exact ih h

theorem fmtSinkErr_ne_empty (now : String) (err : GoErr) :
    fmtSinkErr now err ≠ "" := by
  unfold fmtSinkErr
  intro h
  have hlen := congrArg String.length h
  simp only [String.length_append] at hlen
  have h1 : ("[" : String).length = 1 := rfl
  have h0 : ("" : String).length = 0 := rfl
  omega

/-- **C10.** After every sink `Send` in `lpc.collect` — including a `Send`
that returns nil — the per-sink error map entry is overwritten with a fresh
non-nil error wrapping the (possibly nil) result; hence `Status()` reports
a non-empty error message for every sink the LPC has ever sent to, even
when every `Send` succeeded. -/
theorem c10_sink_errors_always_overwritten_nonnil
    (m : List (String × GoErr)) (now : String) (sinks : List String)
    (sendResult : String → GoErr) (s : String) (hs : s ∈ sinks) :
    (sendToSinks m now sinks sendResult).lookup s =
      some (some (fmtSinkErr now (sendResult s))) ∧
    fmtSinkErr now (sendResult s) ≠ "" ∧
    (statusSinkErrors (sendToSinks m now sinks sendResult)).lookup s =
      some (fmtSinkErr now (sendResult s)) :=
  ⟨sendToSinks_mem m now sendResult hs, fmtSinkErr_ne_empty now (sendResult s),
    statusSinkErrors_lookup (sendToSinks_mem m now sendResult hs)⟩

/-- Witness for C10: one sink `"log"` whose `Send` succeeds (`none`), empty
prior error map. -/
theorem c10_sink_errors_always_overwritten_nonnil_witness :
    (sendToSinks [] "t0" ["log"] (fun _ => none)).lookup "log" =
      some (some (fmtSinkErr "t0" none)) ∧
    fmtSinkErr "t0" none ≠ "" ∧
    (statusSinkErrors (sendToSinks [] "t0" ["log"] (fun _ => none))).lookup "log" =
      some (fmtSinkErr "t0" none) :=
  c10_sink_errors_always_overwritten_nonnil [] "t0" ["log"] (fun _ => none) "log"
    (List.mem_cons_self "log" [])

/-! ## Plan data model (`blip.Plan`, `blip.Level`, `blip.Domain`)

Go maps (`Plan.Levels`, `Level.Collect`, `Domain.Options`) are embedded as
association lists in iteration order; the first binding of a key is the
live one. -/

/-- `blip.Domain`: per-domain options and optional explicit metric list. -/
structure Domain where
  options : List (String × String)
  metrics : List String
deriving DecidableEq, Repr

/-- `blip.Level`: name, frequency and the domains collected at this level.
`freq` is in whole seconds (the source stores the duration string and
parses it in `sortedLevels`). -/
structure Level where
  name : String
  freq : Nat
  collect : List (String × Domain)
deriving DecidableEq, Repr

/-- `blip.Plan`: named map of levels. -/
structure Plan where
  name : String
  levels : List Level
deriving DecidableEq, Repr

/-! ## Plan loader (`plan/plan_loader.go`): `PlansLoaded` -/

/-- `planMeta`: a `blip.Plan` plus metadata. -/
structure planMeta where
  name : String
  source : String
  shared : Bool
  plan : Plan
deriving DecidableEq, Repr

/-- `proto.PlanLoaded`. -/
structure PlanLoaded where
  name : String
  source : String
deriving DecidableEq, Repr

/-- `Loader.PlansLoaded(monitorId)`:

```go
if monitorId == "" {
    loaded = make([]proto.PlanLoaded, len(pl.sharedPlans))
    for i := range pl.sharedPlans {
        loaded[i] = proto.PlanLoaded{Name: pl.sharedPlans[i].name, Source: pl.sharedPlans[i].source}
    }
} else {
    loaded = make([]proto.PlanLoaded, len(pl.monitorPlans[monitorId]))
    for i := range pl.monitorPlans[monitorId] {
        loaded[i] = proto.PlanLoaded{Name: pl.sharedPlans[i].name, Source: pl.sharedPlans[i].source}
    }
}
```

Note the monitor branch iterates the monitor's plans but indexes
`sharedPlans[i]`. `none` models the Go index-out-of-range panic when the
monitor has more plans than there are shared plans. -/
def PlansLoaded (sharedPlans : List planMeta)
    (monitorPlans : List (String × List planMeta)) (monitorId : String) :
    Option (List PlanLoaded) :=
  if monitorId = "" then
    some (sharedPlans.map fun pm => ⟨pm.name, pm.source⟩)
  else
    let mp := (monitorPlans.lookup monitorId).getD []
    if mp.length ≤ sharedPlans.length then
      some ((List.range mp.length).map fun i =>
        ⟨(sharedPlans.getD i ⟨"", "", false, ⟨"", []⟩⟩).name,
         (sharedPlans.getD i ⟨"", "", false, ⟨"", []⟩⟩).source⟩)
    else none

/-- Modelled from the spec: "the spec mandates indexing each slice by its
own length" — for a monitor, `PlansLoaded` must take each entry's name and
source from the monitor's own plan list. -/
def PlansLoadedPerSpec (sharedPlans : List planMeta)
    (monitorPlans : List (String × List planMeta)) (monitorId : String) :
    List PlanLoaded :=
  if monitorId = "" then
    sharedPlans.map fun pm => ⟨pm.name, pm.source⟩
  else
    ((monitorPlans.lookup monitorId).getD []).map fun pm => ⟨pm.name, pm.source⟩

/-- C8 failing input: one shared plan. -/
def c8Shared : List planMeta := [⟨"shared-1", "s", false, ⟨"", []⟩⟩]

/-- C8 failing input: monitor `m1` has one plan of its own, with a name and
source different from the shared plan's. -/
def c8MonitorPlans : List (String × List planMeta) :=
  [("m1", [⟨"mon-1", "t", false, ⟨"", []⟩⟩])]

/-- **C8 (code bug).** For monitor `m1`, the source `PlansLoaded` returns
the shared plan's name and source (`shared-1`/`s`) instead of the
monitor's own plan's (`mon-1`/`t`), because it indexes `sharedPlans` with
the monitor-plans index. -/
theorem c8_plansloaded_indexes_wrong_slice_code_bug :
    PlansLoaded c8Shared c8MonitorPlans "m1" = some [⟨"shared-1", "s"⟩] ∧
    PlansLoadedPerSpec c8Shared c8MonitorPlans "m1" = [⟨"mon-1", "t"⟩] ∧
    PlansLoaded c8Shared c8MonitorPlans "m1" ≠
      some (PlansLoadedPerSpec c8Shared c8MonitorPlans "m1") := by
  decide

/-! ## size.data collector: `Data.Prepare` total-option marking -/

/-- `OPT_TOTAL = "total"` from the size.data collector. -/
def OPT_TOTAL : String := "total"

/-- `DOMAIN = "size.data"` from the size.data collector. -/
def SIZE_DATA_DOMAIN : String := "size.data"

/-- The `total`-map construction of `Data.Prepare`:

```go
for _, level := range plan.Levels {
    dom, ok := level.Collect[DOMAIN]
    if !ok { continue LEVEL }
    ...
    if dom.Options[OPT_TOTAL] == "yse" {
        c.total[level.Name] = true
    }
}
```

Returns the `total` map keyed on level name; a missing key reads as false
(Go zero value). The per-level query compilation (`DataSizeQuery`) is
orthogonal and not modelled. -/
def dataPrepareTotal (p : Plan) : List (String × Bool) :=
  p.levels.foldl (fun acc l =>
    match l.collect.lookup SIZE_DATA_DOMAIN with
    | none => acc
    | some dom =>
      if (dom.options.lookup OPT_TOTAL).getD "" = "yse" then mapSet acc l.name true
      else acc) []

/-- C9 failing input: level `L1` sets the total option to `"yes"` (the
documented value); level `L2` sets it to the typo string `"yse"`. -/
def c9Plan : Plan :=
  { name := "p",
    levels :=
      [{ name := "L1", freq := 1,
         collect := [(SIZE_DATA_DOMAIN, ⟨[("total", "yes")], []⟩)] },
       { name := "L2", freq := 5,
         collect := [(SIZE_DATA_DOMAIN, ⟨[("total", "yse")], []⟩)] }] }

/-- **C9 (code bug).** `Data.Prepare` compares the total option against the
typo `"yse"`, so a level configured with the documented `"yes"` is NOT
marked for the total-size row, while a level with `"yse"` is. -/
theorem c9_total_option_typo_code_bug :
    ((dataPrepareTotal c9Plan).lookup "L1").getD false = false ∧
    ((dataPrepareTotal c9Plan).lookup "L2").getD false = true := by
  decide

/-! ## `sortedLevels` and metric inheritance (`monitor/level_collector.go`) -/

/-- Go map read `plan.Levels[name]`: the level's Collect map, or the zero
value (nil map) for a missing name. -/
def getCollect (levels : List Level) (n : String) : List (String × Domain) :=
  match levels.find? (fun l => l.name == n) with
  | some l => l.collect
  | none => []

/-- Replace the Collect map of the level named `n` — the effect, at the
plan level, of the in-place Go map mutations `leaf.Collect[...] = ...`
(a missing name is a no-op; it never occurs, the names come from the plan
itself). -/
def setCollect : List Level → String → List (String × Domain) → List Level
  | [], _, _ => []
  | l :: rest, n, c =>
    if l.name = n then { l with collect := c } :: rest
    else l :: setCollect rest n c

/-- The body of the domain loop of metric inheritance:

```go
dom, ok := leaf.Collect[domain]
if !ok {
    leaf.Collect[domain] = root.Collect[domain]
} else {
    dom.Metrics = append(dom.Metrics, root.Collect[domain].Metrics...)
    leaf.Collect[domain] = dom
}
```
-/
def mergeDom (leafC : List (String × Domain)) (d : String) (rootSpec : Domain) :
    List (String × Domain) :=
  match leafC.lookup d with
  | none => mapSet leafC d rootSpec
  | some dom => mapSet leafC d { dom with metrics := dom.metrics ++ rootSpec.metrics }

/-- `for domain := range root.Collect { ... }`: merge every domain of the
root level into the leaf's Collect map, in iteration order. -/
def mergeCollect (leafC rootC : List (String × Domain)) : List (String × Domain) :=
  rootC.foldl (fun acc p => mergeDom acc p.1 p.2) leafC

/-- The inner loop `for j := i + 1; j < len(levels); j++`: merge the root's
Collect (read once, before the loop) into every later level, in sorted
order. -/
def inheritLeaves (rootC : List (String × Domain)) :
    List Level → List String → List Level
  | lv, [] => lv
  | lv, leaf :: rest =>
    inheritLeaves rootC (setCollect lv leaf (mergeCollect (getCollect lv leaf) rootC)) rest

/-- The outer loop `for i := 0; i < len(levels); i++` over the sorted level
names: each level's (current) Collect is inherited by all later levels. -/
def inheritAll : List Level → List String → List Level
  | lv, [] => lv
  | lv, r :: rest => inheritAll (inheritLeaves (getCollect lv r) lv rest) rest

/-- The per-level view `sortedLevels` builds first:
`levels[i] = level{name: l.Name, freq: int(d.Seconds())}`. -/
def toLevel (l : Level) : level := ⟨l.freq, l.name⟩

/-- `byFreq.Less`: `a[i].freq < a[j].freq`. -/
def byFreqLess (a b : level) : Prop := a.freq < b.freq

instance : DecidableRel byFreqLess := fun a b => Nat.decLt a.freq b.freq

/-- `sortedLevels(plan)`: build one `level` per plan level, sort ascending
by freq (Go's `sort.Sort` is an unstable quicksort; on the distinct
frequencies used here any correct sort agrees, and we model it with
insertion sort on `byFreq.Less`), then apply metric inheritance, which
mutates the plan's Collect maps in place. Returns the sorted view and the
mutated plan. -/
def sortedLevels (p : Plan) : List level × Plan :=
  let ls := (p.levels.map toLevel).insertionSort byFreqLess
  (ls, { p with levels := inheritAll p.levels (ls.map level.name) })

/-- The transformation `sortedLevels` applies to the plan it is given. -/
def applyPlan (p : Plan) : Plan := (sortedLevels p).2

/-- C3 counterexample plan: level `a` (1s) collects domain `d` with metric
list `["m"]`; level `b` (2s) collects nothing of its own. -/
def c3Plan : Plan :=
  { name := "demo",
    levels := [{ name := "a", freq := 1, collect := [("d", ⟨[], ["m"]⟩)] },
               { name := "b", freq := 2, collect := [] }] }

/-- C3 counterexample: one application gives `b` the inherited domain `d`
with metrics `["m"]`; a second application appends `a`'s metric list again,
yielding `["m", "m"]` — so the transformation is not idempotent on metric
lists. -/
theorem c3_counterexample_inheritance_duplicates_metrics :
    (getCollect (applyPlan c3Plan).levels "b").lookup "d" = some ⟨[], ["m"]⟩ ∧
    (getCollect (applyPlan (applyPlan c3Plan)).levels "b").lookup "d" =
      some ⟨[], ["m", "m"]⟩ ∧
    getCollect (applyPlan (applyPlan c3Plan)).levels "b" ≠
      getCollect (applyPlan c3Plan).levels "b" := by
  decide

/-! ### Helper lemmas for the inheritance analysis -/

theorem any_congr_mem {α : Type} {l : List α} {p q : α → Bool}
    (h : ∀ a ∈ l, p a = q a) : l.any p = l.any q := by
  induction l with
  | nil => rfl
  | cons a rest ih =>
      simp only [List.any_cons]
      rw [h a (List.mem_cons_self a rest),
        ih fun b hb => h b (List.mem_cons_of_mem a hb)]

theorem any_range_or_const (n : Nat) (f : Nat → Bool) (c : Bool) :
    ((List.range (n + 1)).any fun i => f i || c) =
      ((List.range (n + 1)).any f || c) := by
  induction n with
  | zero => simp [List.range_succ]
  | succ k ih =>
      rw [List.range_succ, List.any_append, List.any_append, ih]
      cases c <;> cases f (k + 1) <;> simp

theorem any_range_collapse (f : Nat → Bool) (j : Nat) :
    ((List.range (j + 1)).any fun i => (List.range (i + 1)).any f) =
      (List.range (j + 1)).any f := by
  induction j with
  | zero => simp [List.range_succ]
  | succ k ih =>
      rw [List.range_succ, List.any_append, List.any_append, ih]
      simp only [List.any_cons, List.any_nil, Bool.or_false]
      rw [List.range_succ (k + 1), List.any_append]
      simp only [List.any_cons, List.any_nil, Bool.or_false]
      cases (List.range (k + 1)).any f <;> cases f (k + 1) <;> simp

theorem getD_eq_of_getElem {α : Type} {l : List α} {j : Nat} {a d : α}
    (hj : j < l.length) (h : l[j] = a) : l.getD j d = a := by
  rw [List.getD_eq_getElem?_getD, List.getElem?_eq_getElem hj, h]
  rfl

theorem getD_mem_of_lt {α : Type} {l : List α} {j : Nat} {d : α}
    (hj : j < l.length) : l.getD j d ∈ l := by
  rw [List.getD_eq_getElem?_getD, List.getElem?_eq_getElem hj]
  exact List.getElem_mem hj

theorem names_setCollect (lv : List Level) (n : String) (c : List (String × Domain)) :
    (setCollect lv n c).map Level.name = lv.map Level.name := by
  induction lv with
  | nil => rfl
  | cons l rest ih =>
      by_cases h : l.name = n
      · simp [setCollect, h]
      · simp [setCollect, h, ih]

theorem toLevel_setCollect (lv : List Level) (n : String) (c : List (String × Domain)) :
    (setCollect lv n c).map toLevel = lv.map toLevel := by
  induction lv with
  | nil => rfl
  | cons l rest ih =>
      by_cases h : l.name = n
      · simp [setCollect, h, toLevel]
      · simp [setCollect, h, ih]

theorem setCollect_not_mem (lv : List Level) (n : String) (c : List (String × Domain))
    (h : n ∉ lv.map Level.name) : setCollect lv n c = lv := by
  induction lv with
  | nil => rfl
  | cons l rest ih =>
      simp only [List.map_cons, List.mem_cons, not_or] at h
      obtain ⟨h1, h2⟩ := h
      simp only [setCollect]
      rw [if_neg (fun he => h1 (Eq.symm he)), ih h2]

theorem getCollect_cons_self {l : Level} {rest : List Level} {n : String}
    (h : l.name = n) : getCollect (l :: rest) n = l.collect := by
  unfold getCollect
  rw [List.find?_cons_of_pos _ (by simp [h])]

theorem getCollect_cons_ne {l : Level} {rest : List Level} {n : String}
    (h : l.name ≠ n) : getCollect (l :: rest) n = getCollect rest n := by
  unfold getCollect
  rw [List.find?_cons_of_neg _ (by simp [h])]

theorem getCollect_setCollect_self (lv : List Level) (n : String)
    (c : List (String × Domain)) (hmem : n ∈ lv.map Level.name) :
    getCollect (setCollect lv n c) n = c := by
  induction lv with
  | nil => simp at hmem
  | cons l rest ih =>
      by_cases h : l.name = n
      · simp only [setCollect, if_pos h]
        exact getCollect_cons_self h
      · simp only [setCollect, if_neg h]
        rw [getCollect_cons_ne h]
        simp only [List.map_cons, List.mem_cons] at hmem
        rcases hmem with h1 | h1
        · exact absurd h1.symm h
        · exact ih h1

theorem getCollect_setCollect_ne (lv : List Level) (n : String)
    (c : List (String × Domain)) (m : String) (h : m ≠ n) :
    getCollect (setCollect lv n c) m = getCollect lv m := by
  induction lv with
  | nil => rfl
  | cons l rest ih =>
      by_cases hn : l.name = n
      · have hlm : l.name ≠ m := fun he => h (he.symm.trans hn)
        simp only [setCollect, if_pos hn]
        rw [getCollect_cons_ne (show ({ l with collect := c } : Level).name ≠ m from hlm),
          getCollect_cons_ne hlm]
      · simp only [setCollect, if_neg hn]
        by_cases hm : l.name = m
        · rw [getCollect_cons_self hm, getCollect_cons_self hm]
        · rw [getCollect_cons_ne hm, getCollect_cons_ne hm]
          exact ih

theorem mergeDom_of_not_mem {c : List (String × Domain)} {d : String}
    (spec : Domain) (h : c.lookup d = none) :
    mergeDom c d spec = mapSet c d spec := by
  unfold mergeDom
  rw [h]

theorem mergeDom_of_mem {c : List (String × Domain)} {d : String} {dom : Domain}
    (spec : Domain) (h : c.lookup d = some dom) :
    mergeDom c d spec =
      mapSet c d { dom with metrics := dom.metrics ++ spec.metrics } := by
  unfold mergeDom
  rw [h]

theorem isSome_lookup_mergeDom (c : List (String × Domain)) (d : String)
    (spec : Domain) (d' : String) :
    ((mergeDom c d spec).lookup d').isSome =
      ((c.lookup d').isSome || decide (d' = d)) := by
  cases hc : c.lookup d with
  | none =>
      rw [mergeDom_of_not_mem spec hc]
      by_cases h : d' = d
      · subst h
        rw [lookup_mapSet_self, hc]
        simp
      · rw [lookup_mapSet_ne _ _ h]
        simp [h]
  | some dom =>
      rw [mergeDom_of_mem spec hc]
      by_cases h : d' = d
      · subst h
        rw [lookup_mapSet_self, hc]
        simp
      · rw [lookup_mapSet_ne _ _ h]
        simp [h]

theorem isSome_lookup_mergeCollect (c rc : List (String × Domain)) (d : String) :
    ((mergeCollect c rc).lookup d).isSome =
      ((c.lookup d).isSome || (rc.lookup d).isSome) := by
  induction rc generalizing c with
  | nil => simp [mergeCollect]
  | cons p rest ih =>
      obtain ⟨k, w⟩ := p
      show ((mergeCollect (mergeDom c k w) rest).lookup d).isSome = _
      rw [ih, isSome_lookup_mergeDom]
      by_cases h : d = k
      · subst h
        rw [lookup_cons_self]
        simp
      · rw [lookup_cons_of_ne _ _ h]
        simp [h]

theorem names_inheritLeaves (rootC : List (String × Domain)) (leaves : List String)
    (lv : List Level) :
    (inheritLeaves rootC lv leaves).map Level.name = lv.map Level.name := by
  induction leaves generalizing lv with
  | nil => rfl
  | cons leaf rest ih =>
      show (inheritLeaves rootC (setCollect lv leaf _) rest).map Level.name = _
      rw [ih, names_setCollect]

theorem toLevel_inheritLeaves (rootC : List (String × Domain)) (leaves : List String)
    (lv : List Level) :
    (inheritLeaves rootC lv leaves).map toLevel = lv.map toLevel := by
  induction leaves generalizing lv with
  | nil => rfl
  | cons leaf rest ih =>
      show (inheritLeaves rootC (setCollect lv leaf _) rest).map toLevel = _
      rw [ih, toLevel_setCollect]

/-- What the inner inheritance loop does to each level's Collect map: every
leaf in `leaves` that exists in the plan gets the root's domains merged in;
every other level is untouched. -/
theorem getCollect_inheritLeaves (rootC : List (String × Domain))
    {leaves : List String} (lv : List Level) (hnd : leaves.Nodup) (m : String) :
    getCollect (inheritLeaves rootC lv leaves) m =
      if m ∈ leaves ∧ m ∈ lv.map Level.name
      then mergeCollect (getCollect lv m) rootC
      else getCollect lv m := by
  revert hnd
  induction leaves generalizing lv with
  | nil =>
      intro _
      rw [show inheritLeaves rootC lv [] = lv from rfl]
      simp
  | cons leaf rest ih =>
      intro hnd
      obtain ⟨hleaf, hrest⟩ := List.nodup_cons.1 hnd
      have key := ih (setCollect lv leaf (mergeCollect (getCollect lv leaf) rootC)) hrest
      show getCollect (inheritLeaves rootC
        (setCollect lv leaf (mergeCollect (getCollect lv leaf) rootC)) rest) m = _
      rw [key, names_setCollect]
      by_cases hmr : m ∈ rest
      · have hml : m ≠ leaf := fun he => hleaf (he ▸ hmr)
        rw [getCollect_setCollect_ne _ _ _ _ hml]
        by_cases hmn : m ∈ lv.map Level.name
        · rw [if_pos ⟨hmr, hmn⟩, if_pos ⟨List.mem_cons_of_mem _ hmr, hmn⟩]
        · rw [if_neg (fun hc => hmn hc.2), if_neg (fun hc => hmn hc.2)]
      · by_cases hml : m = leaf
        · subst hml
          by_cases hmn : m ∈ lv.map Level.name
          · rw [if_neg (fun hc => hmr hc.1), getCollect_setCollect_self _ _ _ hmn,
              if_pos ⟨List.mem_cons_self _ _, hmn⟩]
          · rw [if_neg (fun hc => hmr hc.1), setCollect_not_mem _ _ _ hmn,
              if_neg (fun hc => hmn hc.2)]
        · rw [if_neg (fun hc => hmr hc.1), getCollect_setCollect_ne _ _ _ _ hml,
            if_neg (fun hc => ?_)]
          rcases List.mem_cons.1 hc.1 with h1 | h1
          · exact hml h1
          · exact hmr h1

/-- What the whole inheritance pass does, per level, to the set of domain
keys: after the pass, the level at sorted position `j` has domain `d` iff
some level at position `≤ j` had it before; levels outside the sorted name
list are untouched. -/
theorem inheritAll_spec : ∀ (ns : List String) (lv : List Level), ns.Nodup →
    (∀ n ∈ ns, n ∈ lv.map Level.name) →
    (∀ m, m ∉ ns → getCollect (inheritAll lv ns) m = getCollect lv m) ∧
    (∀ j, j < ns.length → ∀ d,
      ((getCollect (inheritAll lv ns) (ns.getD j "")).lookup d).isSome =
        ((List.range (j + 1)).any fun i =>
          ((getCollect lv (ns.getD i "")).lookup d).isSome))
  | [], lv, _, _ => ⟨fun _ _ => rfl, fun j hj => absurd hj (by simp)⟩
  | r :: rest, lv, hnd, hsub => by
      obtain ⟨hr, hrest⟩ := List.nodup_cons.1 hnd
      have hsub1 : ∀ n ∈ rest,
          n ∈ (inheritLeaves (getCollect lv r) lv rest).map Level.name := fun n hn => by
        rw [names_inheritLeaves]
        exact hsub n (List.mem_cons_of_mem _ hn)
      obtain ⟨ihA, ihB⟩ :=
        inheritAll_spec rest (inheritLeaves (getCollect lv r) lv rest) hrest hsub1
      have hshow : inheritAll lv (r :: rest) =
          inheritAll (inheritLeaves (getCollect lv r) lv rest) rest := rfl
      constructor
      · intro m hm
        have hm_rest : m ∉ rest := fun hc => hm (List.mem_cons_of_mem r hc)
        rw [hshow, ihA m hm_rest, getCollect_inheritLeaves _ lv hrest m,
          if_neg (fun hc => hm_rest hc.1)]
      · intro j hj d
        rw [hshow]
        cases j with
        | zero =>
            rw [List.getD_cons_zero, ihA r hr, getCollect_inheritLeaves _ lv hrest r,
              if_neg (fun hc => hr hc.1)]
            simp [List.range_succ]
        | succ j' =>
            have hj' : j' < rest.length := by simpa using hj
            rw [List.getD_cons_succ, ihB j' hj' d]
            have hterm : ∀ i ∈ List.range (j' + 1),
                ((getCollect (inheritLeaves (getCollect lv r) lv rest)
                  (rest.getD i "")).lookup d).isSome =
                  (((getCollect lv (rest.getD i "")).lookup d).isSome ||
                    ((getCollect lv r).lookup d).isSome) := by
              intro i hi
              have hilt : i < rest.length :=
                lt_of_lt_of_le (List.mem_range.1 hi) (by omega)
              have hmem : rest.getD i "" ∈ rest := getD_mem_of_lt hilt
              have hmemn : rest.getD i "" ∈ lv.map Level.name :=
                hsub _ (List.mem_cons_of_mem _ hmem)
              rw [getCollect_inheritLeaves _ lv hrest _, if_pos ⟨hmem, hmemn⟩,
                isSome_lookup_mergeCollect]
            rw [any_congr_mem hterm, any_range_or_const]
            conv_rhs => rw [List.range_succ_eq_map]
            simp only [List.any_cons, List.any_map, List.getD_cons_zero]
            rw [Bool.or_comm]
            apply congrArg
            apply any_congr_mem
            intro i _
            rw [Function.comp_apply, List.getD_cons_succ]

theorem toLevel_inheritAll : ∀ (ns : List String) (lv : List Level),
    (inheritAll lv ns).map toLevel = lv.map toLevel
  | [], _ => rfl
  | r :: rest, lv => by
      show (inheritAll (inheritLeaves (getCollect lv r) lv rest) rest).map toLevel = _
      rw [toLevel_inheritAll rest _, toLevel_inheritLeaves]

theorem names_inheritAll : ∀ (ns : List String) (lv : List Level),
    (inheritAll lv ns).map Level.name = lv.map Level.name
  | [], _ => rfl
  | r :: rest, lv => by
      show (inheritAll (inheritLeaves (getCollect lv r) lv rest) rest).map Level.name = _
      rw [names_inheritAll rest _, names_inheritLeaves]

/-- The sorted level-name order that `sortedLevels` runs inheritance over. -/
def sortedNames (p : Plan) : List String :=
  ((p.levels.map toLevel).insertionSort byFreqLess).map level.name

theorem applyPlan_levels (p : Plan) :
    (applyPlan p).levels = inheritAll p.levels (sortedNames p) := rfl

theorem sortedNames_perm (p : Plan) :
    (sortedNames p).Perm (p.levels.map Level.name) := by
  have h2 := (List.perm_insertionSort byFreqLess (p.levels.map toLevel)).map level.name
  rw [List.map_map] at h2
  have h3 : (level.name ∘ toLevel) = Level.name := funext fun l => rfl
  rw [h3] at h2
  exact h2

theorem toLevel_applyPlan (p : Plan) :
    (applyPlan p).levels.map toLevel = p.levels.map toLevel := by
  rw [applyPlan_levels, toLevel_inheritAll]

theorem sortedNames_applyPlan (p : Plan) :
    sortedNames (applyPlan p) = sortedNames p := by
  unfold sortedNames
  rw [toLevel_applyPlan]

theorem names_applyPlan (p : Plan) :
    (applyPlan p).levels.map Level.name = p.levels.map Level.name := by
  rw [applyPlan_levels, names_inheritAll]

/-- **C3 (amended).** The metric-inheritance transformation of
`sortedLevels` is idempotent on the per-level domain key sets (for plans
satisfying the data-model invariants: unique level names, freq ≥ 1s), but
not on the metric lists: a second application appends the lower levels'
metric lists again (`c3_counterexample_inheritance_duplicates_metrics`). -/
theorem c3_inheritance_idempotent_on_domains (p : Plan)
    (hnd : (p.levels.map Level.name).Nodup)
    (_hfreq : ∀ l ∈ p.levels, 1 ≤ l.freq) (n d : String) :
    ((getCollect (applyPlan (applyPlan p)).levels n).lookup d).isSome =
      ((getCollect (applyPlan p).levels n).lookup d).isSome := by
  have hperm := sortedNames_perm p
  have hndns : (sortedNames p).Nodup := hperm.nodup_iff.2 hnd
  have hsub : ∀ m ∈ sortedNames p, m ∈ p.levels.map Level.name := fun m hm =>
    hperm.mem_iff.1 hm
  obtain ⟨A1, B1⟩ := inheritAll_spec (sortedNames p) p.levels hndns hsub
  have hsub2 : ∀ m ∈ sortedNames p, m ∈ (applyPlan p).levels.map Level.name := by
    intro m hm
    rw [names_applyPlan]
    exact hsub m hm
  obtain ⟨A2, B2⟩ := inheritAll_spec (sortedNames p) (applyPlan p).levels hndns hsub2
  have happ2 : (applyPlan (applyPlan p)).levels =
      inheritAll (applyPlan p).levels (sortedNames p) := by
    rw [applyPlan_levels (applyPlan p), sortedNames_applyPlan]
  by_cases hmem : n ∈ sortedNames p
  · obtain ⟨j, hj, hn⟩ := List.getElem_of_mem hmem
    have hgd : (sortedNames p).getD j "" = n := getD_eq_of_getElem hj hn
    rw [happ2, ← hgd, B2 j hj d]
    have hpt : ∀ i ∈ List.range (j + 1),
        ((getCollect (applyPlan p).levels
          ((sortedNames p).getD i "")).lookup d).isSome =
          ((List.range (i + 1)).any fun k =>
            ((getCollect p.levels ((sortedNames p).getD k "")).lookup d).isSome) := by
      intro i hi
      have hilt : i < (sortedNames p).length :=
        lt_of_lt_of_le (List.mem_range.1 hi) hj
      rw [applyPlan_levels]
      exact B1 i hilt d
    rw [any_congr_mem hpt, any_range_collapse, applyPlan_levels p, B1 j hj d]
  · rw [happ2, A2 n hmem]

/-- Witness for C3 (amended) at the counterexample plan: the domain key
sets of level `b` agree between one and two applications even though the
metric lists differ. -/
theorem c3_inheritance_idempotent_on_domains_witness :
    ((getCollect (applyPlan (applyPlan c3Plan)).levels "b").lookup "d").isSome =
      ((getCollect (applyPlan c3Plan).levels "b").lookup "d").isSome :=
  c3_inheritance_idempotent_on_domains c3Plan (by decide) (by decide) "b" "d"

end Blip
